import Mathlib

/-!
A shallow embedding of the `World` block/chunk store from
`crates/base/src/world.rs` of the feather repository, together with proofs
of the store's contracts.

The store itself (`World` and its methods, `check_coords`,
`chunk_relative_pos`) is translated directly from the source.  The `Chunk`
container, the `BlockPosition → ChunkPosition` conversion and the
`CHUNK_HEIGHT` constant live in parts of the crate that are not available
here; those are modelled from the specification and are marked as such in
their doc comments.

Rust `i32` fields are embedded as `Int`; the `as usize` casts in
`chunk_relative_pos` (sign extension of an `i32` value to a 64-bit
unsigned machine word) are embedded as `(·.emod (2 ^ 64)).toNat`, which
agrees with the machine semantics on every value an `i32` can take.
Stateful methods (those that mutate chunks behind the per-chunk lock, or
the map itself) are embedded in state-passing style: they return their
result together with the world state after the call.
-/

/-- `BlockId` is opaque to the world store; it is only stored and returned.
We embed it as a natural number. -/
abbrev BlockId := Nat

/-- Modelled from the spec: the constant `CHUNK_HEIGHT`, "the number of
valid vertical block layers per chunk".  Its numeric value is not fixed by
the available sources; 256 is used here.  None of the proved properties
depend on the particular value. -/
def CHUNK_HEIGHT : Nat := 256

/-- `ChunkPosition { x: i32, z: i32 }`: 2D integer coordinate identifying
a chunk column; equality by value. -/
structure ChunkPosition where
  x : Int
  z : Int
deriving DecidableEq, Repr

/-- `BlockPosition { x: i32, y: i32, z: i32 }`: 3D integer coordinate in
world space. -/
structure BlockPosition where
  x : Int
  y : Int
  z : Int
deriving DecidableEq, Repr

/-- Modelled from the spec: the opaque `Chunk` collaborator, a container
of block data for one column, addressable by in-chunk-relative coordinates
`(x ∈ [0,16), y ∈ [0,CHUNK_HEIGHT), z ∈ [0,16))`, knowing its own
`ChunkPosition`. -/
structure Chunk where
  pos : ChunkPosition
  blocks : Nat → Nat → Nat → BlockId

/-- Modelled from the spec: `Chunk::position()` returns the chunk's own
`ChunkPosition`. -/
def Chunk.position (c : Chunk) : ChunkPosition := c.pos

/-- Modelled from the spec: `Chunk::block_at(x, y, z) -> Option<BlockId>`;
the in-chunk lookup yields a block for every address in the valid range
and nothing outside it. -/
def Chunk.block_at (c : Chunk) (x y z : Nat) : Option BlockId :=
  if x < 16 ∧ y < CHUNK_HEIGHT ∧ z < 16 then some (c.blocks x y z) else none

/-- Modelled from the spec: `Chunk::set_block_at(x, y, z, block)` stores
`block` at the addressed in-chunk cell (addresses outside the valid range
do not address any cell). -/
def Chunk.set_block_at (c : Chunk) (x y z : Nat) (block : BlockId) : Chunk :=
  if x < 16 ∧ y < CHUNK_HEIGHT ∧ z < 16 then
    { c with blocks := fun a b d => if a = x ∧ b = y ∧ d = z then block else c.blocks a b d }
  else c

/-- Modelled from the spec: the defined conversion
`BlockPosition -> ChunkPosition` used by `block_at`/`set_block_at` via
`pos.into()`: it "drops y, divides x/z by 16 with floor semantics for
negative coordinates". -/
def ChunkPosition.ofBlockPos (pos : BlockPosition) : ChunkPosition :=
  ⟨Int.fdiv pos.x 16, Int.fdiv pos.z 16⟩

/-- `World(pub WorldInner)` with
`WorldInner = AHashMap<ChunkPosition, Arc<RwLock<Chunk>>>`: the map from
chunk coordinates to loaded chunks.  The map is embedded as a function to
`Option Chunk`; lock guards are elided, their effects appearing as the
state threading of the methods below. -/
structure World where
  chunks : ChunkPosition → Option Chunk

/-- `World::new()`: creates a new, empty world. -/
def World.new : World := ⟨fun _ => none⟩

/-- `World::chunk_at`: the chunk at the given position (behind a read
guard), or `none` if it is not loaded. -/
def World.chunk_at (w : World) (pos : ChunkPosition) : Option Chunk :=
  w.chunks pos

/-- `World::chunk_at_mut`: the chunk at the given position (behind a write
guard), or `none` if it is not loaded. -/
def World.chunk_at_mut (w : World) (pos : ChunkPosition) : Option Chunk :=
  w.chunks pos

/-- `World::chunk_handle_at`: a clone of the shared handle at the given
position. -/
def World.chunk_handle_at (w : World) (pos : ChunkPosition) : Option Chunk :=
  w.chunks pos

/-- `fn check_coords(pos: BlockPosition) -> Option<()>`: `Some(())` when
`pos.y >= 0 && pos.y < CHUNK_HEIGHT as i32`, else `None`. -/
def check_coords (pos : BlockPosition) : Option Unit :=
  if 0 ≤ pos.y ∧ pos.y < (CHUNK_HEIGHT : Int) then some () else none

/-- `fn chunk_relative_pos(block_pos) -> (usize, usize, usize)`:
`(x as usize & 0xf, y as usize, z as usize & 0xf)`. -/
def chunk_relative_pos (block_pos : BlockPosition) : Nat × Nat × Nat :=
  ((block_pos.x % (2 ^ 64)).toNat &&& 0xf,
    (block_pos.y % (2 ^ 64)).toNat,
    (block_pos.z % (2 ^ 64)).toNat &&& 0xf)

/-- `World::block_at`: validates coordinates, resolves the owning chunk
via `pos.into()`, and reads the block through the chunk's read guard.
Returns the looked-up block together with the world state after the call. -/
def World.block_at (w : World) (pos : BlockPosition) : Option BlockId × World :=
  match check_coords pos with
  | none => (none, w)
  | some _ =>
    let r := chunk_relative_pos pos
    match w.chunk_at (ChunkPosition.ofBlockPos pos) with
    | none => (none, w)
    | some c => (c.block_at r.1 r.2.1 r.2.2, w)

/-- `World::set_block_at`: validates coordinates, resolves the owning
chunk via `pos.into()`, and mutates the chunk through its write guard;
returns whether a chunk was written, with the world state after the call. -/
def World.set_block_at (w : World) (pos : BlockPosition) (block : BlockId) :
    Bool × World :=
  match check_coords pos with
  | none => (false, w)
  | some _ =>
    let r := chunk_relative_pos pos
    match w.chunk_at_mut (ChunkPosition.ofBlockPos pos) with
    | none => (false, w)
    | some c =>
      (true,
        ⟨fun q =>
          if q = ChunkPosition.ofBlockPos pos then
            some (c.set_block_at r.1 r.2.1 r.2.2 block)
          else w.chunks q⟩)

/-- `World::insert_chunk`: inserts the chunk keyed by its own
`position()`, overwriting any prior entry. -/
def World.insert_chunk (w : World) (c : Chunk) : World :=
  ⟨fun q => if q = c.position then some c else w.chunks q⟩

/-- `World::remove_chunk`: removes the entry at `pos` if present and
returns whether it existed, with the world state after the call. -/
def World.remove_chunk (w : World) (pos : ChunkPosition) : Bool × World :=
  ((w.chunks pos).isSome, ⟨fun q => if q = pos then none else w.chunks q⟩)

/-- World states reachable from `World::new()` by structural operations
(`insert_chunk`, `remove_chunk`). -/
inductive World.Reachable : World → Prop where
  | new : World.Reachable World.new
  | insert (w : World) (c : Chunk) :
      World.Reachable w → World.Reachable (w.insert_chunk c)
  | remove (w : World) (pos : ChunkPosition) :
      World.Reachable w → World.Reachable (w.remove_chunk pos).2

/-- Concrete chunk used to instantiate theorems at specific worlds. -/
def cA : Chunk := { pos := ⟨1, 2⟩, blocks := fun _ _ _ => 0 }

/-- A second concrete chunk at a different position. -/
def cB : Chunk := { pos := ⟨3, 4⟩, blocks := fun _ _ _ => 0 }

lemma land_fifteen (n : Nat) : n &&& 15 = n % 16 := by
  have h := Nat.and_pow_two_sub_one_eq_mod n 4
  simpa using h

lemma chunk_relative_pos_fst (pos : BlockPosition) :
    (chunk_relative_pos pos).1 = (pos.x % 16).toNat := by
  have h64 : ((2 : Int) ^ 64) = 18446744073709551616 := by norm_num
  simp only [chunk_relative_pos, land_fifteen, h64]
  omega

lemma chunk_relative_pos_trd (pos : BlockPosition) :
    (chunk_relative_pos pos).2.2 = (pos.z % 16).toNat := by
  have h64 : ((2 : Int) ^ 64) = 18446744073709551616 := by norm_num
  simp only [chunk_relative_pos, land_fifteen, h64]
  omega

lemma chunk_relative_pos_fst_lt (pos : BlockPosition) :
    (chunk_relative_pos pos).1 < 16 := by
  rw [chunk_relative_pos_fst]; omega

lemma chunk_relative_pos_trd_lt (pos : BlockPosition) :
    (chunk_relative_pos pos).2.2 < 16 := by
  rw [chunk_relative_pos_trd]; omega

lemma chunk_relative_pos_snd (pos : BlockPosition) (h0 : 0 ≤ pos.y)
    (h1 : pos.y < 2 ^ 64) : ((chunk_relative_pos pos).2.1 : Int) = pos.y := by
  have h64 : ((2 : Int) ^ 64) = 18446744073709551616 := by norm_num
  simp only [chunk_relative_pos, h64]
  rw [h64] at h1
  omega

lemma check_coords_some (pos : BlockPosition) (h0 : 0 ≤ pos.y)
    (h1 : pos.y < (CHUNK_HEIGHT : Int)) : check_coords pos = some () := by
  simp [check_coords, h0, h1]

lemma check_coords_none (pos : BlockPosition)
    (h : pos.y < 0 ∨ (CHUNK_HEIGHT : Int) ≤ pos.y) : check_coords pos = none := by
  rcases h with h | h <;> simp [check_coords] <;> omega

lemma Chunk.block_at_set_block_at (c : Chunk) (x y z : Nat) (block : BlockId)
    (hx : x < 16) (hy : y < CHUNK_HEIGHT) (hz : z < 16) :
    (c.set_block_at x y z block).block_at x y z = some block := by
  simp [Chunk.set_block_at, Chunk.block_at, hx, hy, hz]

/-- Claim C2: the `BlockPosition`-to-`ChunkPosition` conversion used by
`block_at` and `set_block_at` to resolve the owning chunk divides x and z
by 16 with floor semantics (toward negative infinity), not truncation; in
particular, for every block position with x = -1, the owning chunk has
chunk x = -1, not 0.  Floor semantics is stated by the division-algorithm
characterisation of the floor quotient. -/
theorem ofBlockPos_floor_semantics (pos : BlockPosition) :
    ((ChunkPosition.ofBlockPos pos).x * 16 ≤ pos.x ∧
      pos.x < ((ChunkPosition.ofBlockPos pos).x + 1) * 16) ∧
    ((ChunkPosition.ofBlockPos pos).z * 16 ≤ pos.z ∧
      pos.z < ((ChunkPosition.ofBlockPos pos).z + 1) * 16) ∧
    (pos.x = -1 → (ChunkPosition.ofBlockPos pos).x = -1) := by
  simp only [ChunkPosition.ofBlockPos]
  rw [Int.fdiv_eq_ediv _ (by norm_num), Int.fdiv_eq_ediv _ (by norm_num)]
  refine ⟨⟨?_, ?_⟩, ⟨?_, ?_⟩, fun h => ?_⟩ <;> omega

/-- Witness for C2 at the concrete position (-1, 0, -17): the owning chunk
has chunk x = -1 (truncation would give 0). -/
theorem ofBlockPos_floor_semantics_witness :
    (ChunkPosition.ofBlockPos ⟨-1, 0, -17⟩).x = -1 ∧
    (ChunkPosition.ofBlockPos ⟨-1, 0, -17⟩).z * 16 ≤ -17 :=
  ⟨(ofBlockPos_floor_semantics ⟨-1, 0, -17⟩).2.2 rfl,
    (ofBlockPos_floor_semantics ⟨-1, 0, -17⟩).2.1.1⟩

/-- Claim C3: for every block position with `y < 0` or `y ≥ CHUNK_HEIGHT`
and every world state, `block_at` returns `none` and `set_block_at`
returns `false` leaving the world untouched; in particular no chunk-level
operation is performed on the out-of-bounds coordinate. -/
theorem out_of_bounds_rejected (w : World) (pos : BlockPosition)
    (block : BlockId) (h : pos.y < 0 ∨ (CHUNK_HEIGHT : Int) ≤ pos.y) :
    (w.block_at pos).1 = none ∧ w.set_block_at pos block = (false, w) := by
  have hcc : check_coords pos = none := check_coords_none pos h
  constructor
  · simp [World.block_at, hcc]
  · simp [World.set_block_at, hcc]

/-- Witness for C3 at y = -1 over a world with a chunk loaded at (0, 0)'s
column for position (0, -1, 0) (mirroring the source's own test). -/
theorem out_of_bounds_rejected_witness :
    ((World.new.insert_chunk cA).block_at ⟨0, -1, 0⟩).1 = none ∧
    (World.new.insert_chunk cA).set_block_at ⟨0, -1, 0⟩ 7 =
      (false, World.new.insert_chunk cA) :=
  out_of_bounds_rejected (World.new.insert_chunk cA) ⟨0, -1, 0⟩ 7
    (Or.inl (by decide))

/-- Claim C6: `insert_chunk` stores the chunk under the key
`chunk.position()`, replacing any prior entry at that position without
error (all other entries are untouched), and an immediately following
`chunk_at` at that position returns a present handle to the inserted
chunk. -/
theorem insert_chunk_spec (w : World) (c : Chunk) :
    (w.insert_chunk c).chunks c.position = some c ∧
    (w.insert_chunk c).chunk_at c.position = some c ∧
    ∀ q, q ≠ c.position → (w.insert_chunk c).chunks q = w.chunks q := by
  refine ⟨by simp [World.insert_chunk], by simp [World.insert_chunk, World.chunk_at],
    fun q hq => by simp [World.insert_chunk, hq]⟩

/-- Witness for C6: inserting the concrete chunk `cA` into the empty world
makes `chunk_at` at its position present and leaves position (9, 9)
untouched. -/
theorem insert_chunk_spec_witness :
    (World.new.insert_chunk cA).chunk_at cA.position = some cA ∧
    (World.new.insert_chunk cA).chunks ⟨9, 9⟩ = World.new.chunks ⟨9, 9⟩ :=
  ⟨(insert_chunk_spec World.new cA).2.1,
    (insert_chunk_spec World.new cA).2.2 ⟨9, 9⟩ (by decide)⟩

/-- Claim C7: `remove_chunk` at a position with no loaded chunk returns
`false` and leaves the store unchanged; at a position with a loaded chunk
it returns `true`, after which `chunk_at` at that position returns
`none`. -/
theorem remove_chunk_spec (w : World) (pos : ChunkPosition) :
    (w.chunks pos = none → w.remove_chunk pos = (false, w)) ∧
    ∀ c, w.chunks pos = some c →
      (w.remove_chunk pos).1 = true ∧
      (w.remove_chunk pos).2.chunk_at pos = none := by
  constructor
  · intro h
    have hw : (fun q => if q = pos then none else w.chunks q) = w.chunks := by
      funext q
      by_cases hq : q = pos
      · rw [hq, if_pos rfl, h]
      · rw [if_neg hq]
    unfold World.remove_chunk
    rw [h, hw]
    rfl
  · intro c h
    refine ⟨by simp [World.remove_chunk, h], by simp [World.remove_chunk, World.chunk_at]⟩

/-- Witness for C7: removal from the empty world returns `false` and
changes nothing; removal of the concrete chunk `cA` returns `true` and a
subsequent `chunk_at` is absent. -/
theorem remove_chunk_spec_witness :
    World.new.remove_chunk ⟨1, 2⟩ = (false, World.new) ∧
    ((World.new.insert_chunk cA).remove_chunk ⟨1, 2⟩).1 = true ∧
    ((World.new.insert_chunk cA).remove_chunk ⟨1, 2⟩).2.chunk_at ⟨1, 2⟩ = none :=
  ⟨(remove_chunk_spec World.new ⟨1, 2⟩).1 rfl,
    (remove_chunk_spec (World.new.insert_chunk cA) ⟨1, 2⟩).2 cA rfl⟩

/-- Claim C9: `block_at` leaves the store entirely unchanged — the world
state after the call equals the state before it (hence the set of loaded
chunk positions, the stored handles and every chunk's contents are
unchanged). -/
theorem block_at_world_unchanged (w : World) (pos : BlockPosition) :
    (w.block_at pos).2 = w := by
  rcases hc : check_coords pos with _ | u
  · simp [World.block_at, hc]
  · rcases hk : w.chunk_at (ChunkPosition.ofBlockPos pos) with _ | c <;>
      simp [World.block_at, hc, hk]

/-- Claim C1 (read-your-write): for every block position with
`0 ≤ y < CHUNK_HEIGHT` whose derived chunk position is loaded, `block_at`
returns the value just written by `set_block_at` at that exact position. -/
theorem block_at_after_set_block_at (w : World) (pos : BlockPosition)
    (block : BlockId) (c : Chunk)
    (hy0 : 0 ≤ pos.y) (hyH : pos.y < (CHUNK_HEIGHT : Int))
    (hload : w.chunks (ChunkPosition.ofBlockPos pos) = some c) :
    ((w.set_block_at pos block).2.block_at pos).1 = some block := by
  have hcc : check_coords pos = some () := check_coords_some pos hy0 hyH
  have hx := chunk_relative_pos_fst_lt pos
  have hz := chunk_relative_pos_trd_lt pos
  have hH : CHUNK_HEIGHT = 256 := rfl
  have hy : (chunk_relative_pos pos).2.1 < CHUNK_HEIGHT := by
    have h64 : pos.y < 2 ^ 64 := by
      rw [hH] at hyH
      have : ((2 : Int) ^ 64) = 18446744073709551616 := by norm_num
      omega
    have hs := chunk_relative_pos_snd pos hy0 h64
    rw [hH] at hyH ⊢
    omega
  simp [World.set_block_at, World.block_at, World.chunk_at, World.chunk_at_mut,
    hcc, hload, Chunk.block_at, Chunk.set_block_at, hx, hy, hz]

/-- Witness for C1: writing block 7 at (17, 5, 33) into a world whose
chunk (1, 2) is loaded, then reading the same position, yields 7. -/
theorem block_at_after_set_block_at_witness :
    (0 : Int) ≤ 5 ∧ (5 : Int) < (CHUNK_HEIGHT : Int) ∧
    (((World.new.insert_chunk cA).set_block_at ⟨17, 5, 33⟩ 7).2.block_at
      ⟨17, 5, 33⟩).1 = some 7 :=
  ⟨by decide, by decide,
    block_at_after_set_block_at (World.new.insert_chunk cA) ⟨17, 5, 33⟩ 7 cA
      (by decide) (by decide) rfl⟩

/-- Claim C4: for every in-bounds block position, `set_block_at` returns
`false` leaving the world untouched when no chunk is loaded at the derived
chunk position, and when one is loaded it returns `true` and delegates the
mutation to that chunk's `set_block_at` at the in-chunk coordinates. -/
theorem set_block_at_spec (w : World) (pos : BlockPosition) (block : BlockId)
    (hy0 : 0 ≤ pos.y) (hyH : pos.y < (CHUNK_HEIGHT : Int)) :
    (w.chunks (ChunkPosition.ofBlockPos pos) = none →
      w.set_block_at pos block = (false, w)) ∧
    ∀ c, w.chunks (ChunkPosition.ofBlockPos pos) = some c →
      (w.set_block_at pos block).1 = true ∧
      (w.set_block_at pos block).2.chunks (ChunkPosition.ofBlockPos pos) =
        some (c.set_block_at (chunk_relative_pos pos).1
          (chunk_relative_pos pos).2.1 (chunk_relative_pos pos).2.2 block) := by
  have hcc : check_coords pos = some () := check_coords_some pos hy0 hyH
  constructor
  · intro h
    simp [World.set_block_at, hcc, World.chunk_at_mut, h]
  · intro c h
    constructor <;> simp [World.set_block_at, hcc, World.chunk_at_mut, h]

/-- Witness for C4: setting a block in the empty world returns `false`;
setting a block whose owning chunk (1, 2) is loaded returns `true`. -/
theorem set_block_at_spec_witness :
    World.new.set_block_at ⟨17, 5, 33⟩ 7 = (false, World.new) ∧
    ((World.new.insert_chunk cA).set_block_at ⟨17, 5, 33⟩ 7).1 = true :=
  ⟨(set_block_at_spec World.new ⟨17, 5, 33⟩ 7 (by decide) (by decide)).1 rfl,
    ((set_block_at_spec (World.new.insert_chunk cA) ⟨17, 5, 33⟩ 7 (by decide)
      (by decide)).2 cA rfl).1⟩

/-- Counterexample to C5 as stated: at block position (0, -1, 0) the y
component computed by `chunk_relative_pos` is not the unchanged input y
(the `as usize` cast turns -1 into 2^64 - 1). -/
theorem chunk_relative_pos_y_not_unchanged :
    ¬ (((chunk_relative_pos ⟨0, -1, 0⟩).2.1 : Int) = -1) := by decide

/-- Claim C5 as amended: `chunk_relative_pos` returns x and z masked with
0xF — equivalently reduced mod 16 — so those components always lie in
[0, 16) for every input including negative world x/z; the y component is
the `as usize` image of y, which equals the input y unchanged whenever
`0 ≤ y` (within the i32 range). -/
theorem chunk_relative_pos_spec (pos : BlockPosition) :
    (chunk_relative_pos pos).1 = (pos.x % 16).toNat ∧
    (chunk_relative_pos pos).2.2 = (pos.z % 16).toNat ∧
    (chunk_relative_pos pos).1 < 16 ∧
    (chunk_relative_pos pos).2.2 < 16 ∧
    (0 ≤ pos.y → pos.y < 2 ^ 31 → ((chunk_relative_pos pos).2.1 : Int) = pos.y) :=
  ⟨chunk_relative_pos_fst pos, chunk_relative_pos_trd pos,
    chunk_relative_pos_fst_lt pos, chunk_relative_pos_trd_lt pos,
    fun h0 h1 => chunk_relative_pos_snd pos h0 (by omega)⟩

/-- Witness for amended C5 at (-1, 5, -17): both horizontal components are
15 and the y component is the unchanged 5. -/
theorem chunk_relative_pos_spec_witness :
    (chunk_relative_pos ⟨-1, 5, -17⟩).1 = 15 ∧
    (chunk_relative_pos ⟨-1, 5, -17⟩).2.2 = 15 ∧
    ((chunk_relative_pos ⟨-1, 5, -17⟩).2.1 : Int) = 5 := by
  have h := chunk_relative_pos_spec ⟨-1, 5, -17⟩
  exact ⟨by rw [h.1]; decide, by rw [h.2.1]; decide,
    h.2.2.2.2 (by decide) (by decide)⟩

/-- Claim C8: in every world state reachable from `new()` by insertions
and removals, every chunk stored in the map has an internal position equal
to the map key it is stored under. -/
theorem reachable_chunks_position_keyed (w : World) (h : World.Reachable w) :
    ∀ p c, w.chunks p = some c → c.position = p := by
  induction h with
  | new =>
    intro p c hp
    simp [World.new] at hp
  | insert w' c' _ ih =>
    intro p c hp
    by_cases hq : p = c'.position
    · subst hq
      simp [World.insert_chunk] at hp
      subst hp
      rfl
    · simp [World.insert_chunk, hq] at hp
      exact ih p c hp
  | remove w' pos _ ih =>
    intro p c hp
    by_cases hq : p = pos
    · subst hq
      simp [World.remove_chunk] at hp
    · simp [World.remove_chunk, hq] at hp
      exact ih p c hp

/-- Witness for C8 on the concrete reachable world obtained by inserting
`cA` and `cB` and then removing the chunk at (1, 2): the chunk stored at
key (3, 4) has internal position (3, 4). -/
theorem reachable_chunks_position_keyed_witness :
    Chunk.position cB = (⟨3, 4⟩ : ChunkPosition) :=
  reachable_chunks_position_keyed
    (((World.new.insert_chunk cA).insert_chunk cB).remove_chunk ⟨1, 2⟩).2
    (World.Reachable.remove _ _
      (World.Reachable.insert _ _ (World.Reachable.insert _ _ World.Reachable.new)))
    ⟨3, 4⟩ cB rfl
